import Mathlib

/-!
Shallow embedding of the note-taking CRUD service in `src/main.py`.

The collection `notas_db` is a `List Nota`; each HTTP operation becomes a
function from the collection (plus its inputs and, where the source calls
`datetime.now()`, an explicit `now : Nat` timestamp) to a result together
with the new collection state.  Python's `str.lower()` is modelled by
`String.toLower`, `str.strip()` by `String.trim`, and the substring test
`a in b` by an explicit scan over the character lists.  `HTTPException`
raise sites are modelled by an error type with one constructor per kind of
failure the source distinguishes by status code and detail message.
-/

deriving instance DecidableEq for Except

/-- The three failure kinds of the service: status 400 with detail
"El título es requerido"/"El contenido es requerido" (invalid input),
status 400 with detail "Ya existe una nota con ese título" (conflict),
and status 404 "Nota no encontrada" (not found). -/
inductive ApiError where
  | invalidInput : ApiError
  | conflict : ApiError
  | notFound : ApiError
deriving DecidableEq, Repr

/-- The payload of a create/update request (`NotaCreate` in `main.py`);
`categoria` and `importante` carry the pydantic defaults "General" and
`false` already applied by the framework layer. -/
structure NotaCreate where
  titulo : String
  contenido : String
  autor : String
  categoria : String
  importante : Bool
deriving DecidableEq, Repr

/-- A stored note (`Nota` in `main.py`); timestamps are abstract `Nat`s. -/
structure Nota where
  titulo : String
  contenido : String
  autor : String
  categoria : String
  importante : Bool
  fecha_creacion : Nat
  fecha_actualizacion : Nat
deriving DecidableEq, Repr

/-- Python's `str.lower()`, character by character (`Char.toLower`, like
Python's lowering on the basic latin range the service's data uses). -/
def strLower (s : String) : String := ⟨s.data.map Char.toLower⟩

/-- Python's `str.strip()`: drop leading and trailing whitespace. -/
def strTrim (s : String) : String :=
  ⟨((s.data.dropWhile Char.isWhitespace).reverse.dropWhile
      Char.isWhitespace).reverse⟩

/-- `a.lower() == b.lower()`: the case-insensitive comparison used
throughout `main.py`. -/
def lowEq (a b : String) : Bool := strLower a == strLower b

/-- `listaPrefijo a b`: the character list `a` is a prefix of `b`. -/
def listaPrefijo : List Char → List Char → Bool
  | [], _ => true
  | _ :: _, [] => false
  | a :: as, b :: bs => a == b && listaPrefijo as bs

/-- `listaSubcadena sub l`: the character list `sub` occurs contiguously
inside `l` (Python's `sub in l` on strings). -/
def listaSubcadena (sub : List Char) : List Char → Bool
  | [] => listaPrefijo sub []
  | c :: rest => listaPrefijo sub (c :: rest) || listaSubcadena sub rest

/-- Python's `sub in s` substring test on strings. -/
def strIncluye (s sub : String) : Bool := listaSubcadena sub.data s.data

/-- GET `/notas` (`obtener_notas` in `main.py`): optional filters.  The
source guards the category filter with Python truthiness (`if categoria:`),
so both `None` and the empty string skip it; the importance filter is
guarded with `is not None`. -/
def obtener_notas (db : List Nota) (categoria : Option String)
    (importante : Option Bool) : List Nota :=
  let notas_filtradas :=
    match categoria with
    | none => db
    | some c => if c == "" then db else db.filter (fun n => lowEq n.categoria c)
  match importante with
  | none => notas_filtradas
  | some b => notas_filtradas.filter (fun n => n.importante == b)

/-- GET `/notas/{titulo}` (`obtener_nota`): first case-insensitive title
match, else 404. -/
def obtener_nota (db : List Nota) (titulo : String) : Except ApiError Nota :=
  match db.find? (fun n => lowEq n.titulo titulo) with
  | some n => .ok n
  | none => .error .notFound

/-- POST `/notas` (`crear_nota`): validates the trimmed title and content
are non-empty, then that no existing note has the same title
case-insensitively, then appends the new note.  Returns the response and
the new collection state (unchanged on error, since the source raises
before mutating). -/
def crear_nota (db : List Nota) (nota : NotaCreate) (now : Nat) :
    Except ApiError Nota × List Nota :=
  if strTrim nota.titulo == "" then (.error .invalidInput, db)
  else if strTrim nota.contenido == "" then (.error .invalidInput, db)
  else if db.any (fun n => lowEq n.titulo nota.titulo) then (.error .conflict, db)
  else
    let nueva_nota : Nota :=
      { titulo := nota.titulo, contenido := nota.contenido, autor := nota.autor,
        categoria := nota.categoria, importante := nota.importante,
        fecha_creacion := now, fecha_actualizacion := now }
    (.ok nueva_nota, db ++ [nueva_nota])

/-- The replacement object built by `actualizar_nota`: all fields from the
request except `fecha_creacion`, which is kept from the old note, and
`fecha_actualizacion`, which is set to the current time. -/
def nota_actualizada_obj (na : NotaCreate) (vieja : Nota) (now : Nat) : Nota :=
  { titulo := na.titulo, contenido := na.contenido, autor := na.autor,
    categoria := na.categoria, importante := na.importante,
    fecha_creacion := vieja.fecha_creacion, fecha_actualizacion := now }

/-- The duplicate-title check of `actualizar_nota` (lines 94–98): only
performed when the new title differs case-insensitively from the looked-up
title, and it ignores every note whose title matches the looked-up title. -/
def conflicto_actualizar (db : List Nota) (titulo nuevoTitulo : String) : Bool :=
  !lowEq nuevoTitulo titulo &&
    db.any (fun n => lowEq n.titulo nuevoTitulo && !lowEq n.titulo titulo)

/-- The `for i, nota in enumerate(notas_db)` loop of `actualizar_nota`:
scan `l` for the first case-insensitive title match, run the conflict
check against the whole collection, and replace in place. -/
def actualizar_go (whole : List Nota) (titulo : String) (na : NotaCreate)
    (now : Nat) : List Nota → Except ApiError (Nota × List Nota)
  | [] => .error .notFound
  | n :: rest =>
    if lowEq n.titulo titulo then
      if conflicto_actualizar whole titulo na.titulo then .error .conflict
      else
        let obj := nota_actualizada_obj na n now
        .ok (obj, obj :: rest)
    else
      (actualizar_go whole titulo na now rest).map (fun p => (p.1, n :: p.2))

/-- PUT `/notas/{titulo}` (`actualizar_nota`).  Returns the response and
the new collection state (unchanged on error). -/
def actualizar_nota (db : List Nota) (titulo : String) (na : NotaCreate)
    (now : Nat) : Except ApiError Nota × List Nota :=
  match actualizar_go db titulo na now db with
  | .error e => (.error e, db)
  | .ok p => (.ok p.1, p.2)

/-- The `for i, nota in enumerate(notas_db)` loop of `eliminar_nota`:
remove the first case-insensitive title match, returning it and the
remaining list. -/
def eliminar_go (titulo : String) : List Nota → Option (Nota × List Nota)
  | [] => none
  | n :: rest =>
    if lowEq n.titulo titulo then some (n, rest)
    else (eliminar_go titulo rest).map (fun p => (p.1, n :: p.2))

/-- DELETE `/notas/{titulo}` (`eliminar_nota`).  The source returns a JSON
object `{mensaje, nota_eliminada}`; we model the payload by the removed
note itself.  Returns the response and the new collection state. -/
def eliminar_nota (db : List Nota) (titulo : String) :
    Except ApiError Nota × List Nota :=
  match eliminar_go titulo db with
  | none => (.error .notFound, db)
  | some p => (.ok p.1, p.2)

/-- The match predicate of `buscar_notas`: the lowered search text occurs
in the lowered title or the lowered content. -/
def coincide_busqueda (texto : String) (n : Nota) : Bool :=
  strIncluye (strLower n.titulo) (strLower texto) ||
    strIncluye (strLower n.contenido) (strLower texto)

/-- GET `/buscar/{texto}` (`buscar_notas`): the loop appends every
matching note to `resultados` in collection order. -/
def buscar_notas (db : List Nota) (texto : String) : List Nota :=
  match db with
  | [] => []
  | n :: rest =>
    if coincide_busqueda texto n then n :: buscar_notas rest texto
    else buscar_notas rest texto

/-- Python dict lookup `d.get(k)` on the insertion-ordered association
list we use to model the `categorias` dict. -/
def dictGet (d : List (String × Nat)) (k : String) : Option Nat :=
  (d.find? (fun p => p.1 == k)).map (fun p => p.2)

/-- Python dict assignment `d[k] = v`: overwrite in place if the key is
present, else append. -/
def dictSet (k : String) (v : Nat) : List (String × Nat) → List (String × Nat)
  | [] => [(k, v)]
  | p :: rest => if p.1 == k then (k, v) :: rest else p :: dictSet k v rest

/-- The response object of GET `/estadisticas`. -/
structure Estadisticas where
  total_notas : Nat
  notas_importantes : Nat
  notas_normales : Nat
  categorias : List (String × Nat)
deriving DecidableEq, Repr

/-- GET `/estadisticas` (`obtener_estadisticas`): totals plus a tally of
notes per raw (case-sensitive) category string. -/
def obtener_estadisticas (db : List Nota) : Estadisticas :=
  let total_notas := db.length
  let notas_importantes := (db.filter (fun n => n.importante)).length
  let categorias := db.foldl
    (fun d n => dictSet n.categoria ((dictGet d n.categoria).getD 0 + 1) d) []
  { total_notas := total_notas, notas_importantes := notas_importantes,
    notas_normales := total_notas - notas_importantes,
    categorias := categorias }

/-- The states of `notas_db` reachable from the empty collection at process
start through the service's mutating endpoints. -/
inductive Reachable : List Nota → Prop where
  | inicial : Reachable []
  | paso_crear {db} (nc : NotaCreate) (now : Nat) :
      Reachable db → Reachable (crear_nota db nc now).2
  | paso_actualizar {db} (titulo : String) (nc : NotaCreate) (now : Nat) :
      Reachable db → Reachable (actualizar_nota db titulo nc now).2
  | paso_eliminar {db} (titulo : String) :
      Reachable db → Reachable (eliminar_nota db titulo).2

/-! ### Basic lemmas about the helpers -/

theorem lowEq_iff {a b : String} : lowEq a b = true ↔ strLower a = strLower b := by
  simp [lowEq]

theorem lowEq_self (a : String) : lowEq a a = true := by
  simp [lowEq]

theorem lowEq_false_iff {a b : String} :
    lowEq a b = false ↔ strLower a ≠ strLower b := by
  rw [← Bool.not_eq_true, lowEq_iff]

theorem listaPrefijo_iff {a b : List Char} :
    listaPrefijo a b = true ↔ ∃ t, b = a ++ t := by
  induction a generalizing b with
  | nil => simp [listaPrefijo]
  | cons c cs ih =>
    cases b with
    | nil =>
      simp only [listaPrefijo]
      constructor
      · intro h; exact absurd h (by simp)
      · rintro ⟨t, ht⟩; exact absurd ht (by simp)
    | cons d ds =>
      simp only [listaPrefijo, Bool.and_eq_true, beq_iff_eq, ih,
        List.cons_append, List.cons.injEq]
      constructor
      · rintro ⟨rfl, t, rfl⟩; exact ⟨t, rfl, rfl⟩
      · rintro ⟨t, rfl, rfl⟩; exact ⟨rfl, t, rfl⟩

theorem listaSubcadena_iff {sub l : List Char} :
    listaSubcadena sub l = true ↔ ∃ s t, l = s ++ sub ++ t := by
  induction l with
  | nil =>
    simp only [listaSubcadena, listaPrefijo_iff]
    constructor
    · rintro ⟨t, ht⟩
      exact ⟨[], t, by simpa using ht⟩
    · rintro ⟨s, t, ht⟩
      have h3 : s = [] ∧ sub = [] ∧ t = [] := by simpa using ht.symm
      exact ⟨[], by simp [h3.2.1]⟩
  | cons c cs ih =>
    simp only [listaSubcadena, Bool.or_eq_true, listaPrefijo_iff, ih]
    constructor
    · rintro (⟨t, ht⟩ | ⟨s, t, ht⟩)
      · exact ⟨[], t, by simpa using ht⟩
      · exact ⟨c :: s, t, by simp [ht]⟩
    · rintro ⟨s, t, ht⟩
      cases s with
      | nil => exact Or.inl ⟨t, by simpa using ht⟩
      | cons d ds =>
        right
        refine ⟨ds, t, ?_⟩
        have := ht
        simp only [List.cons_append, List.cons.injEq] at this
        exact this.2

theorem strIncluye_iff {s sub : String} :
    strIncluye s sub = true ↔ ∃ pre post, s.data = pre ++ sub.data ++ post := by
  simp [strIncluye, listaSubcadena_iff]

theorem strIncluye_empty (s : String) : strIncluye s "" = true := by
  rw [strIncluye_iff]
  exact ⟨[], s.data, by simp⟩

theorem strLower_empty : strLower "" = "" := rfl

/-! ### Characterizations of the scanning loops -/

theorem find?_append_clean {p : Nota → Bool} {pre l : List Nota}
    (h : ∀ n ∈ pre, p n = false) :
    List.find? p (pre ++ l) = List.find? p l := by
  rw [List.find?_append]
  have : List.find? p pre = none := List.find?_eq_none.mpr (by
    intro n hn
    simp [h n hn])
  simp [this]

theorem eliminar_go_none {titulo : String} {l : List Nota}
    (h : ∀ n ∈ l, lowEq n.titulo titulo = false) :
    eliminar_go titulo l = none := by
  induction l with
  | nil => rfl
  | cons n rest ih =>
    simp only [eliminar_go, h n (by simp)]
    rw [ih (fun m hm => h m (by simp [hm]))]
    rfl

theorem eliminar_go_decomp {titulo : String} {pre rest : List Nota} {tgt : Nota}
    (hpre : ∀ n ∈ pre, lowEq n.titulo titulo = false)
    (htgt : lowEq tgt.titulo titulo = true) :
    eliminar_go titulo (pre ++ tgt :: rest) = some (tgt, pre ++ rest) := by
  induction pre with
  | nil => simp [eliminar_go, htgt]
  | cons n pre' ih =>
    have hn : lowEq n.titulo titulo = false := hpre n (by simp)
    have ih' := ih (fun m hm => hpre m (by simp [hm]))
    simp [eliminar_go, hn, ih']

theorem eliminar_go_cases (titulo : String) (l : List Nota) :
    ((∀ n ∈ l, lowEq n.titulo titulo = false) ∧ eliminar_go titulo l = none) ∨
    (∃ pre tgt rest, l = pre ++ tgt :: rest ∧
      (∀ n ∈ pre, lowEq n.titulo titulo = false) ∧
      lowEq tgt.titulo titulo = true ∧
      eliminar_go titulo l = some (tgt, pre ++ rest)) := by
  induction l with
  | nil => exact Or.inl ⟨by simp, rfl⟩
  | cons n rest ih =>
    cases h : lowEq n.titulo titulo with
    | true =>
      exact Or.inr ⟨[], n, rest, by simp, by simp, h, by simp [eliminar_go, h]⟩
    | false =>
      rcases ih with ⟨hall, hnone⟩ | ⟨pre, tgt, rest', heq, hpre, htgt, hgo⟩
      · refine Or.inl ⟨?_, ?_⟩
        · intro m hm
          rcases List.mem_cons.mp hm with rfl | hm'
          · exact h
          · exact hall m hm'
        · simp [eliminar_go, h, hnone]
      · subst heq
        refine Or.inr ⟨n :: pre, tgt, rest', by simp, ?_, htgt, ?_⟩
        · intro m hm
          rcases List.mem_cons.mp hm with rfl | hm'
          · exact h
          · exact hpre m hm'
        · simp [eliminar_go, h, hgo]

theorem except_map_error {α β γ : Type} (f : α → β) (e : γ) :
    Except.map f (Except.error e) = Except.error e := rfl

theorem except_map_ok {α β γ : Type} (f : α → β) (a : α) :
    Except.map f (Except.ok a : Except γ α) = Except.ok (f a) := rfl

theorem actualizar_go_none {whole : List Nota} {titulo : String}
    {na : NotaCreate} {now : Nat} {l : List Nota}
    (h : ∀ n ∈ l, lowEq n.titulo titulo = false) :
    actualizar_go whole titulo na now l = .error .notFound := by
  induction l with
  | nil => rfl
  | cons n rest ih =>
    have hn : lowEq n.titulo titulo = false := h n (by simp)
    have ih' := ih (fun m hm => h m (by simp [hm]))
    simp [actualizar_go, hn, ih', except_map_error]

theorem actualizar_go_decomp {whole : List Nota} {titulo : String}
    {na : NotaCreate} {now : Nat} {pre rest : List Nota} {tgt : Nota}
    (hpre : ∀ n ∈ pre, lowEq n.titulo titulo = false)
    (htgt : lowEq tgt.titulo titulo = true) :
    actualizar_go whole titulo na now (pre ++ tgt :: rest) =
      if conflicto_actualizar whole titulo na.titulo then .error .conflict
      else .ok (nota_actualizada_obj na tgt now,
        pre ++ nota_actualizada_obj na tgt now :: rest) := by
  induction pre with
  | nil =>
    cases hc : conflicto_actualizar whole titulo na.titulo <;>
      simp [actualizar_go, htgt, hc]
  | cons n pre' ih =>
    have hn : lowEq n.titulo titulo = false := hpre n (by simp)
    have ih' := ih (fun m hm => hpre m (by simp [hm]))
    cases hc : conflicto_actualizar whole titulo na.titulo <;>
      simp [actualizar_go, hn, ih', hc, except_map_error, except_map_ok]

theorem actualizar_go_cases (whole : List Nota) (titulo : String)
    (na : NotaCreate) (now : Nat) (l : List Nota) :
    ((∀ n ∈ l, lowEq n.titulo titulo = false) ∧
      actualizar_go whole titulo na now l = .error .notFound) ∨
    (∃ pre tgt rest, l = pre ++ tgt :: rest ∧
      (∀ n ∈ pre, lowEq n.titulo titulo = false) ∧
      lowEq tgt.titulo titulo = true ∧
      actualizar_go whole titulo na now l =
        if conflicto_actualizar whole titulo na.titulo then .error .conflict
        else .ok (nota_actualizada_obj na tgt now,
          pre ++ nota_actualizada_obj na tgt now :: rest)) := by
  induction l with
  | nil => exact Or.inl ⟨by simp, rfl⟩
  | cons n rest ih =>
    cases h : lowEq n.titulo titulo with
    | true =>
      refine Or.inr ⟨[], n, rest, by simp, by simp, h, ?_⟩
      cases hc : conflicto_actualizar whole titulo na.titulo <;>
        simp [actualizar_go, h, hc]
    | false =>
      rcases ih with ⟨hall, hnone⟩ | ⟨pre, tgt, rest', heq, hpre, htgt, hgo⟩
      · refine Or.inl ⟨?_, ?_⟩
        · intro m hm
          rcases List.mem_cons.mp hm with rfl | hm'
          · exact h
          · exact hall m hm'
        · simp [actualizar_go, h, hnone, except_map_error]
      · subst heq
        refine Or.inr ⟨n :: pre, tgt, rest', by simp, ?_, htgt, ?_⟩
        · intro m hm
          rcases List.mem_cons.mp hm with rfl | hm'
          · exact h
          · exact hpre m hm'
        · cases hc : conflicto_actualizar whole titulo na.titulo with
          | true =>
            simp only [hc, if_true] at hgo
            simp [actualizar_go, h, hgo, hc, except_map_error]
          | false =>
            simp only [hc, Bool.false_eq_true, if_false] at hgo
            simp [actualizar_go, h, hgo, hc, except_map_ok]

/-- The note object appended by a successful `crear_nota`. -/
def nueva_nota (nota : NotaCreate) (now : Nat) : Nota :=
  { titulo := nota.titulo, contenido := nota.contenido, autor := nota.autor,
    categoria := nota.categoria, importante := nota.importante,
    fecha_creacion := now, fecha_actualizacion := now }

theorem crear_nota_exito {db : List Nota} {nota : NotaCreate} {now : Nat}
    (ht : strTrim nota.titulo ≠ "")
    (hc : strTrim nota.contenido ≠ "")
    (hlibre : ∀ n ∈ db, lowEq n.titulo nota.titulo = false) :
    crear_nota db nota now = (.ok (nueva_nota nota now), db ++ [nueva_nota nota now]) := by
  have h1 : (strTrim nota.titulo == "") = false := by
    simpa using ht
  have h2 : (strTrim nota.contenido == "") = false := by
    simpa using hc
  have h3 : db.any (fun n => lowEq n.titulo nota.titulo) = false := by
    rw [List.any_eq_false]
    intro n hn
    simp [hlibre n hn]
  simp [crear_nota, h1, h2, h3, nueva_nota]

theorem crear_nota_cases (db : List Nota) (nota : NotaCreate) (now : Nat) :
    (crear_nota db nota now).2 = db ∨
    crear_nota db nota now =
      (.ok (nueva_nota nota now), db ++ [nueva_nota nota now]) := by
  unfold crear_nota
  split
  · exact Or.inl rfl
  · split
    · exact Or.inl rfl
    · split
      · exact Or.inl rfl
      · exact Or.inr rfl

theorem crear_nota_error {db : List Nota} {nota : NotaCreate} {now : Nat}
    {e : ApiError} (h : (crear_nota db nota now).1 = .error e) :
    (crear_nota db nota now).2 = db := by
  rcases crear_nota_cases db nota now with h2 | h2
  · exact h2
  · rw [h2] at h
    exact absurd h (by simp)

theorem actualizar_nota_error {db : List Nota} {titulo : String}
    {na : NotaCreate} {now : Nat} {e : ApiError}
    (h : (actualizar_nota db titulo na now).1 = .error e) :
    (actualizar_nota db titulo na now).2 = db := by
  unfold actualizar_nota at h ⊢
  cases hgo : actualizar_go db titulo na now db <;> simp [hgo] at h ⊢

theorem eliminar_nota_error {db : List Nota} {titulo : String} {e : ApiError}
    (h : (eliminar_nota db titulo).1 = .error e) :
    (eliminar_nota db titulo).2 = db := by
  unfold eliminar_nota at h ⊢
  cases hgo : eliminar_go titulo db <;> simp [hgo] at h ⊢

/-! ### The spec's data-model invariants -/

/-- Spec invariant: stored titles and contents are never empty or
whitespace-only. -/
def invariante (db : List Nota) : Prop :=
  ∀ n ∈ db, strTrim n.titulo ≠ "" ∧ strTrim n.contenido ≠ ""

instance (db : List Nota) : Decidable (invariante db) :=
  inferInstanceAs
    (Decidable (∀ n ∈ db, strTrim n.titulo ≠ "" ∧ strTrim n.contenido ≠ ""))

/-- Spec invariant: at most one note per case-insensitive title. -/
def sinDuplicados (db : List Nota) : Prop :=
  db.Pairwise (fun a b => strLower a.titulo ≠ strLower b.titulo)

instance (db : List Nota) : Decidable (sinDuplicados db) :=
  inferInstanceAs
    (Decidable (List.Pairwise (fun a b : Nota => strLower a.titulo ≠ strLower b.titulo) db))

theorem crear_preserva_invariante {db : List Nota} {nc : NotaCreate} {now : Nat}
    (hinv : invariante db) : invariante (crear_nota db nc now).2 := by
  unfold crear_nota
  split
  · exact hinv
  next h1 =>
    split
    · exact hinv
    next h2 =>
      split
      · exact hinv
      · intro n hn
        rcases List.mem_append.mp hn with hdb | hnew
        · exact hinv n hdb
        · have hn' : n = nueva_nota nc now := by simpa [nueva_nota] using hnew
          subst hn'
          exact ⟨by simpa [nueva_nota] using h1, by simpa [nueva_nota] using h2⟩

theorem eliminar_preserva_invariante {db : List Nota} {titulo : String}
    (hinv : invariante db) : invariante (eliminar_nota db titulo).2 := by
  rcases eliminar_go_cases titulo db with ⟨_, hnone⟩ | ⟨pre, tgt, rest, heq, _, _, hgo⟩
  · simpa [eliminar_nota, hnone] using hinv
  · subst heq
    unfold eliminar_nota
    rw [hgo]
    intro n hn
    rcases List.mem_append.mp hn with hp | hr
    · exact hinv n (List.mem_append.mpr (Or.inl hp))
    · exact hinv n (List.mem_append.mpr (Or.inr (List.mem_cons_of_mem tgt hr)))

theorem actualizar_preserva_invariante {db : List Nota} {titulo : String}
    {na : NotaCreate} {now : Nat}
    (ht : strTrim na.titulo ≠ "") (hc : strTrim na.contenido ≠ "")
    (hinv : invariante db) : invariante (actualizar_nota db titulo na now).2 := by
  rcases actualizar_go_cases db titulo na now db
    with ⟨_, hnone⟩ | ⟨pre, tgt, rest, heq, hpre, htgt, hgo⟩
  · simpa [actualizar_nota, hnone] using hinv
  · cases hcf : conflicto_actualizar db titulo na.titulo with
    | true =>
      simp only [hcf, if_true] at hgo
      simpa [actualizar_nota, hgo] using hinv
    | false =>
      simp only [hcf, Bool.false_eq_true, if_false] at hgo
      unfold actualizar_nota
      rw [hgo]
      intro n hn
      subst heq
      rcases List.mem_append.mp hn with hp | hr
      · exact hinv n (List.mem_append.mpr (Or.inl hp))
      · rcases List.mem_cons.mp hr with rfl | hr'
        · exact ⟨ht, hc⟩
        · exact hinv n (List.mem_append.mpr (Or.inr (List.mem_cons_of_mem tgt hr')))

theorem sinDuplicados_replace {pre rest : List Nota} {tgt obj : Nota}
    (h : sinDuplicados (pre ++ tgt :: rest))
    (hobj : ∀ e ∈ pre ++ rest, strLower e.titulo ≠ strLower obj.titulo) :
    sinDuplicados (pre ++ obj :: rest) := by
  unfold sinDuplicados at h ⊢
  rw [List.pairwise_append] at h ⊢
  obtain ⟨h1, h2, h3⟩ := h
  rw [List.pairwise_cons] at h2 ⊢
  refine ⟨h1, ⟨?_, h2.2⟩, ?_⟩
  · intro b hb
    exact (hobj b (List.mem_append.mpr (Or.inr hb))).symm
  · intro a ha b hb
    rcases List.mem_cons.mp hb with rfl | hb'
    · exact hobj a (List.mem_append.mpr (Or.inl ha))
    · exact h3 a ha b (List.mem_cons_of_mem tgt hb')

theorem crear_preserva_sinDuplicados {db : List Nota} {nc : NotaCreate}
    {now : Nat} (hdup : sinDuplicados db) :
    sinDuplicados (crear_nota db nc now).2 := by
  unfold crear_nota
  split
  · exact hdup
  · split
    · exact hdup
    · split
      · exact hdup
      next h3 =>
        have h3' : db.any (fun n => lowEq n.titulo nc.titulo) = false := by
          simpa using h3
        have hlibre : ∀ n ∈ db, strLower n.titulo ≠ strLower nc.titulo := by
          intro n hn
          have := List.any_eq_false.mp h3' n hn
          simpa [lowEq] using this
        unfold sinDuplicados at hdup ⊢
        rw [List.pairwise_append]
        refine ⟨hdup, List.pairwise_singleton _ _, ?_⟩
        intro a ha b hb
        have hb' : b = nueva_nota nc now := by simpa [nueva_nota] using hb
        subst hb'
        exact hlibre a ha

theorem eliminar_preserva_sinDuplicados {db : List Nota} {titulo : String}
    (hdup : sinDuplicados db) : sinDuplicados (eliminar_nota db titulo).2 := by
  rcases eliminar_go_cases titulo db with ⟨_, hnone⟩ | ⟨pre, tgt, rest, heq, _, _, hgo⟩
  · simpa [eliminar_nota, hnone] using hdup
  · subst heq
    unfold eliminar_nota
    rw [hgo]
    exact List.Pairwise.sublist
      ((List.sublist_cons_self tgt rest).append_left pre) hdup

theorem actualizar_preserva_sinDuplicados {db : List Nota} {titulo : String}
    {na : NotaCreate} {now : Nat} (hdup : sinDuplicados db) :
    sinDuplicados (actualizar_nota db titulo na now).2 := by
  rcases actualizar_go_cases db titulo na now db
    with ⟨_, hnone⟩ | ⟨pre, tgt, rest, heq, hpre, htgt, hgo⟩
  · simpa [actualizar_nota, hnone] using hdup
  · cases hcf : conflicto_actualizar db titulo na.titulo with
    | true =>
      simp only [hcf, if_true] at hgo
      simpa [actualizar_nota, hgo] using hdup
    | false =>
      simp only [hcf, Bool.false_eq_true, if_false] at hgo
      unfold actualizar_nota
      rw [hgo]
      subst heq
      have htgt' : strLower tgt.titulo = strLower titulo := lowEq_iff.mp htgt
      refine sinDuplicados_replace hdup ?_
      intro e he
      have hetgt : strLower e.titulo ≠ strLower tgt.titulo := by
        unfold sinDuplicados at hdup
        rw [List.pairwise_append] at hdup
        rcases List.mem_append.mp he with hp | hr
        · exact hdup.2.2 e hp tgt (List.mem_cons_self tgt rest)
        · exact ((List.pairwise_cons.mp hdup.2.1).1 e hr).symm
      have hobj_tit : (nota_actualizada_obj na tgt now).titulo = na.titulo := rfl
      rw [hobj_tit]
      rcases Bool.and_eq_false_iff.mp hcf with hsame | hany
      · have hna : lowEq na.titulo titulo = true := by
          cases hx : lowEq na.titulo titulo
          · rw [hx] at hsame; simp at hsame
          · rfl
        rw [lowEq_iff.mp hna, ← htgt']
        exact hetgt
      · intro hcontra
        have he_db : e ∈ pre ++ tgt :: rest := by
          rcases List.mem_append.mp he with hp | hr
          · exact List.mem_append.mpr (Or.inl hp)
          · exact List.mem_append.mpr (Or.inr (List.mem_cons_of_mem tgt hr))
        have hnot := List.any_eq_false.mp hany e he_db
        have h1 : lowEq e.titulo na.titulo = true := lowEq_iff.mpr hcontra
        have h2 : lowEq e.titulo titulo = true := by
          cases hx : lowEq e.titulo titulo
          · exact absurd (by rw [Bool.and_eq_true]; exact ⟨h1, by rw [hx]; rfl⟩) hnot
          · rfl
        exact hetgt ((lowEq_iff.mp h2).trans htgt'.symm)

theorem reachable_sinDuplicados {db : List Nota} (h : Reachable db) :
    sinDuplicados db := by
  induction h with
  | inicial => exact List.Pairwise.nil
  | paso_crear nc now _ ih => exact crear_preserva_sinDuplicados ih
  | paso_actualizar titulo nc now _ ih => exact actualizar_preserva_sinDuplicados ih
  | paso_eliminar titulo _ ih => exact eliminar_preserva_sinDuplicados ih

/-! ### Statistics: the category tally -/

/-- The number of notes whose raw category string is exactly `c`. -/
def contarCategoria (db : List Nota) (c : String) : Nat :=
  db.countP (fun n => n.categoria == c)

theorem dictGet_cons (x : String × Nat) (l : List (String × Nat)) (c : String) :
    dictGet (x :: l) c = if x.1 = c then some x.2 else dictGet l c := by
  cases hb : x.1 == c with
  | true =>
    have h : x.1 = c := by simpa using hb
    simp [dictGet, List.find?, hb, h]
  | false =>
    have h : ¬x.1 = c := by simpa using hb
    simp [dictGet, List.find?, hb, h]

theorem dictGet_dictSet (k : String) (v : Nat) (d : List (String × Nat))
    (c : String) :
    dictGet (dictSet k v d) c = if k = c then some v else dictGet d c := by
  induction d with
  | nil =>
    cases hb : k == c with
    | true =>
      have h : k = c := by simpa using hb
      simp [dictSet, dictGet, List.find?, hb, h]
    | false =>
      have h : ¬k = c := by simpa using hb
      simp [dictSet, dictGet, List.find?, hb, h]
  | cons p rest ih =>
    by_cases h1 : p.1 = k
    · rw [show dictSet k v (p :: rest) = (k, v) :: rest by simp [dictSet, h1],
        dictGet_cons, dictGet_cons]
      by_cases h2 : k = c
      · simp [h2]
      · have : ¬(p.1 = c) := by rw [h1]; exact h2
        simp [h2, this]
    · rw [show dictSet k v (p :: rest) = p :: dictSet k v rest by
        simp [dictSet, h1], dictGet_cons, ih, dictGet_cons]
      by_cases h2 : k = c
      · have : ¬(p.1 = c) := by rw [h2] at h1; exact h1
        simp [h2, this]
      · simp [h2]

theorem categorias_fold_getD (l : List Nota) (d : List (String × Nat))
    (c : String) :
    (dictGet (l.foldl
      (fun d n => dictSet n.categoria ((dictGet d n.categoria).getD 0 + 1) d) d)
        c).getD 0 =
      (dictGet d c).getD 0 + contarCategoria l c := by
  induction l generalizing d with
  | nil => simp [contarCategoria]
  | cons n rest ih =>
    rw [List.foldl_cons, ih, dictGet_dictSet]
    by_cases h : n.categoria = c
    · rw [if_pos h, h]
      simp only [contarCategoria, List.countP_cons]
      have hb : (fun n : Nota => n.categoria == c) n = true := by simpa using h
      simp [hb, Option.getD_some]
      omega
    · rw [if_neg h]
      simp only [contarCategoria, List.countP_cons]
      have : (fun n : Nota => n.categoria == c) n = false := by simpa using h
      simp [this]

theorem categorias_fold_none (l : List Nota) (d : List (String × Nat))
    (c : String) :
    dictGet (l.foldl
      (fun d n => dictSet n.categoria ((dictGet d n.categoria).getD 0 + 1) d) d)
        c = none ↔
      dictGet d c = none ∧ contarCategoria l c = 0 := by
  induction l generalizing d with
  | nil => simp [contarCategoria]
  | cons n rest ih =>
    rw [List.foldl_cons, ih, dictGet_dictSet]
    by_cases h : n.categoria = c
    · simp only [if_pos h, contarCategoria, List.countP_cons]
      have : (fun n : Nota => n.categoria == c) n = true := by simpa using h
      simp [this]
    · simp only [if_neg h, contarCategoria, List.countP_cons]
      have : (fun n : Nota => n.categoria == c) n = false := by simpa using h
      simp [this]

/-! ### Search -/

theorem mem_buscar_notas {db : List Nota} {texto : String} {n : Nota} :
    n ∈ buscar_notas db texto ↔ n ∈ db ∧ coincide_busqueda texto n = true := by
  induction db with
  | nil => simp [buscar_notas]
  | cons m rest ih =>
    simp only [buscar_notas]
    cases h : coincide_busqueda texto m with
    | true =>
      simp only [if_true, List.mem_cons, ih]
      constructor
      · rintro (rfl | ⟨hn, hc⟩)
        · exact ⟨Or.inl rfl, h⟩
        · exact ⟨Or.inr hn, hc⟩
      · rintro ⟨rfl | hn, hc⟩
        · exact Or.inl rfl
        · exact Or.inr ⟨hn, hc⟩
    | false =>
      simp only [Bool.false_eq_true, if_false, ih, List.mem_cons]
      constructor
      · rintro ⟨hn, hc⟩
        exact ⟨Or.inr hn, hc⟩
      · rintro ⟨rfl | hn, hc⟩
        · rw [hc] at h
          cases h
        · exact ⟨hn, hc⟩

theorem buscar_notas_vacio (db : List Nota) : buscar_notas db "" = db := by
  induction db with
  | nil => rfl
  | cons n rest ih =>
    have hc : coincide_busqueda "" n = true := by
      unfold coincide_busqueda
      rw [Bool.or_eq_true]
      exact Or.inl (by rw [strLower_empty]; exact strIncluye_empty _)
    simp [buscar_notas, hc, ih]

theorem obtener_nota_append_nueva {db : List Nota} {nc : NotaCreate} {now : Nat}
    (hlibre : ∀ n ∈ db, lowEq n.titulo nc.titulo = false) :
    obtener_nota (db ++ [nueva_nota nc now]) nc.titulo =
      .ok (nueva_nota nc now) := by
  unfold obtener_nota
  rw [find?_append_clean hlibre]
  have hself : lowEq (nueva_nota nc now).titulo nc.titulo = true := lowEq_self _
  simp [List.find?, hself]

theorem obtener_nota_none {db : List Nota} {titulo : String}
    (h : ∀ n ∈ db, lowEq n.titulo titulo = false) :
    obtener_nota db titulo = .error .notFound := by
  unfold obtener_nota
  have : db.find? (fun n => lowEq n.titulo titulo) = none :=
    List.find?_eq_none.mpr (fun n hn => by simp [h n hn])
  rw [this]

/-! ### The claims -/

/-- C1 counterexample: the state holding one note whose content is the
single space " " is reachable (create a valid note, then update it with a
whitespace-only content — `actualizar_nota` never validates the new
fields), and it violates the claimed invariant. -/
theorem C1_contraejemplo :
    Reachable [⟨"A", " ", "a", "General", false, 0, 1⟩] ∧
    ¬ invariante [⟨"A", " ", "a", "General", false, 0, 1⟩] := by
  constructor
  · have h1 : Reachable (crear_nota [] ⟨"A", "x", "a", "General", false⟩ 0).2 :=
      Reachable.paso_crear _ _ Reachable.inicial
    have h2 : Reachable (actualizar_nota
        (crear_nota [] ⟨"A", "x", "a", "General", false⟩ 0).2
        "A" ⟨"A", " ", "a", "General", false⟩ 1).2 :=
      Reachable.paso_actualizar _ _ _ h1
    have he : (actualizar_nota
        (crear_nota [] ⟨"A", "x", "a", "General", false⟩ 0).2
        "A" ⟨"A", " ", "a", "General", false⟩ 1).2 =
        [⟨"A", " ", "a", "General", false, 0, 1⟩] := by decide
    rw [he] at h2
    exact h2
  · decide

/-- C1 (amended): create and delete preserve the non-empty/non-whitespace
invariant on stored titles and contents unconditionally, and update
preserves it provided the request's trimmed title and content are
non-empty; the update endpoint itself performs no such validation, so the
invariant is not preserved by arbitrary updates. -/
theorem C1_invariante_enmendada (db : List Nota) (nc : NotaCreate)
    (titulo : String) (now : Nat) :
    (invariante db → invariante (crear_nota db nc now).2) ∧
    (invariante db → invariante (eliminar_nota db titulo).2) ∧
    (invariante db → strTrim nc.titulo ≠ "" → strTrim nc.contenido ≠ "" →
      invariante (actualizar_nota db titulo nc now).2) :=
  ⟨crear_preserva_invariante, eliminar_preserva_invariante,
   fun hinv ht hc => actualizar_preserva_invariante ht hc hinv⟩

/-- C1 witness: the amended preservation statement applied at concrete
states. -/
theorem C1_invariante_enmendada_witness :
    invariante (crear_nota [] ⟨"A", "x", "a", "General", false⟩ 0).2 ∧
    invariante (eliminar_nota [] "A").2 ∧
    invariante (actualizar_nota [⟨"A", "x", "a", "General", false, 0, 0⟩]
      "A" ⟨"B", "y", "b", "General", true⟩ 1).2 :=
  ⟨(C1_invariante_enmendada [] ⟨"A", "x", "a", "General", false⟩ "A" 0).1
      (by decide),
   (C1_invariante_enmendada [] ⟨"A", "x", "a", "General", false⟩ "A" 0).2.1
      (by decide),
   (C1_invariante_enmendada [⟨"A", "x", "a", "General", false, 0, 0⟩]
      ⟨"B", "y", "b", "General", true⟩ "A" 1).2.2
      (by decide) (by decide) (by decide)⟩

/-- C2: every reachable collection state has at most one note per
case-insensitive title, and create with an otherwise-valid request whose
title equals a stored note's title case-insensitively (any case) fails
with Conflict. -/
theorem C2_unicidad (db : List Nota) (nc : NotaCreate) (now : Nat) (n : Nota) :
    (Reachable db → sinDuplicados db) ∧
    (n ∈ db → strLower n.titulo = strLower nc.titulo →
      strTrim nc.titulo ≠ "" → strTrim nc.contenido ≠ "" →
      (crear_nota db nc now).1 = .error .conflict) := by
  constructor
  · exact reachable_sinDuplicados
  · intro hmem heq ht hc
    have h1 : (strTrim nc.titulo == "") = false := by simpa using ht
    have h2 : (strTrim nc.contenido == "") = false := by simpa using hc
    have h3 : db.any (fun m => lowEq m.titulo nc.titulo) = true :=
      List.any_eq_true.mpr ⟨n, hmem, lowEq_iff.mpr heq⟩
    simp [crear_nota, h1, h2, h3]

/-- C2 witness: the reachable one-note state for "Shopping" has no
duplicates, and creating "shopping" against it conflicts. -/
theorem C2_unicidad_witness :
    sinDuplicados [⟨"Shopping", "milk", "Alice", "General", false, 0, 0⟩] ∧
    (crear_nota [⟨"Shopping", "milk", "Alice", "General", false, 0, 0⟩]
      ⟨"shopping", "other", "Bob", "General", false⟩ 1).1 =
        .error .conflict := by
  have hr : Reachable [⟨"Shopping", "milk", "Alice", "General", false, 0, 0⟩] := by
    have h1 : Reachable
        (crear_nota [] ⟨"Shopping", "milk", "Alice", "General", false⟩ 0).2 :=
      Reachable.paso_crear _ _ Reachable.inicial
    have he : (crear_nota [] ⟨"Shopping", "milk", "Alice", "General", false⟩ 0).2 =
        [⟨"Shopping", "milk", "Alice", "General", false, 0, 0⟩] := by decide
    rw [he] at h1
    exact h1
  exact ⟨(C2_unicidad [⟨"Shopping", "milk", "Alice", "General", false, 0, 0⟩]
      ⟨"shopping", "other", "Bob", "General", false⟩ 1
      ⟨"Shopping", "milk", "Alice", "General", false, 0, 0⟩).1 hr,
    (C2_unicidad [⟨"Shopping", "milk", "Alice", "General", false, 0, 0⟩]
      ⟨"shopping", "other", "Bob", "General", false⟩ 1
      ⟨"Shopping", "milk", "Alice", "General", false, 0, 0⟩).2
      (by decide) (by decide) (by decide) (by decide)⟩

/-- C3: whenever create, update or delete returns an error, the collection
after the call is exactly the collection before it. -/
theorem C3_errores_sin_efecto (db : List Nota) (nc : NotaCreate)
    (titulo : String) (now : Nat) (e1 e2 e3 : ApiError) :
    ((crear_nota db nc now).1 = .error e1 → (crear_nota db nc now).2 = db) ∧
    ((actualizar_nota db titulo nc now).1 = .error e2 →
      (actualizar_nota db titulo nc now).2 = db) ∧
    ((eliminar_nota db titulo).1 = .error e3 →
      (eliminar_nota db titulo).2 = db) :=
  ⟨crear_nota_error, actualizar_nota_error, eliminar_nota_error⟩

/-- C3 witness: concrete failing create (whitespace title), update and
delete (missing title) leave the empty collection unchanged. -/
theorem C3_errores_sin_efecto_witness :
    (crear_nota [] ⟨" ", "x", "a", "General", false⟩ 0).2 = [] ∧
    (actualizar_nota [] "t" ⟨"A", "x", "a", "General", false⟩ 0).2 = [] ∧
    (eliminar_nota [] "t").2 = [] :=
  ⟨(C3_errores_sin_efecto [] ⟨" ", "x", "a", "General", false⟩ "t" 0
      .invalidInput .notFound .notFound).1 (by decide),
   (C3_errores_sin_efecto [] ⟨" ", "x", "a", "General", false⟩ "t" 0
      .invalidInput .notFound .notFound).2.1 (by decide),
   (C3_errores_sin_efecto [] ⟨" ", "x", "a", "General", false⟩ "t" 0
      .invalidInput .notFound .notFound).2.2 (by decide)⟩

/-- C4: with a case-insensitive match for the looked-up title present
(first match `tgt`), update succeeds when the new title equals the target's
current title case-insensitively, and fails with Conflict when the new
title equals, case-insensitively, the title of a different existing note. -/
theorem C4_actualizar_conflicto (pre rest : List Nota) (tgt n2 : Nota)
    (titulo : String) (na : NotaCreate) (now : Nat)
    (hpre : ∀ n ∈ pre, lowEq n.titulo titulo = false)
    (htgt : lowEq tgt.titulo titulo = true) :
    (strLower na.titulo = strLower tgt.titulo →
      (actualizar_nota (pre ++ tgt :: rest) titulo na now).1 =
        .ok (nota_actualizada_obj na tgt now)) ∧
    (n2 ∈ pre ++ tgt :: rest → strLower n2.titulo = strLower na.titulo →
      strLower n2.titulo ≠ strLower tgt.titulo →
      (actualizar_nota (pre ++ tgt :: rest) titulo na now).1 =
        .error .conflict) := by
  have htgt' : strLower tgt.titulo = strLower titulo := lowEq_iff.mp htgt
  have hdecomp := @actualizar_go_decomp (pre ++ tgt :: rest) titulo na now
    pre rest tgt hpre htgt
  constructor
  · intro hsame
    have hlow : lowEq na.titulo titulo = true :=
      lowEq_iff.mpr (hsame.trans htgt')
    have hcf : conflicto_actualizar (pre ++ tgt :: rest) titulo na.titulo
        = false := by
      unfold conflicto_actualizar
      rw [hlow]
      rfl
    simp only [hcf, Bool.false_eq_true, if_false] at hdecomp
    unfold actualizar_nota
    rw [hdecomp]
  · intro hmem heq hne
    have hlowf : lowEq na.titulo titulo = false := by
      cases hx : lowEq na.titulo titulo
      · rfl
      · exact absurd (heq.trans ((lowEq_iff.mp hx).trans htgt'.symm)) hne
    have hn2t : lowEq n2.titulo titulo = false := by
      rw [lowEq_false_iff]
      intro hcon
      exact hne (hcon.trans htgt'.symm)
    have hcf : conflicto_actualizar (pre ++ tgt :: rest) titulo na.titulo
        = true := by
      unfold conflicto_actualizar
      rw [Bool.and_eq_true]
      refine ⟨by rw [hlowf]; rfl, ?_⟩
      exact List.any_eq_true.mpr ⟨n2, hmem,
        by rw [Bool.and_eq_true]
           exact ⟨lowEq_iff.mpr heq, by rw [hn2t]; rfl⟩⟩
    simp only [hcf, if_true] at hdecomp
    unfold actualizar_nota
    rw [hdecomp]

/-- C4 witness: renaming "A" to its own title succeeds; renaming "A" to
"b", which another note "B" holds case-insensitively, conflicts. -/
theorem C4_actualizar_conflicto_witness :
    (actualizar_nota [⟨"A", "x", "a", "General", false, 0, 0⟩,
        ⟨"B", "y", "b", "General", false, 0, 0⟩] "a"
      ⟨"A", "z", "c", "General", true⟩ 5).1 =
      .ok (nota_actualizada_obj ⟨"A", "z", "c", "General", true⟩
        ⟨"A", "x", "a", "General", false, 0, 0⟩ 5) ∧
    (actualizar_nota [⟨"A", "x", "a", "General", false, 0, 0⟩,
        ⟨"B", "y", "b", "General", false, 0, 0⟩] "a"
      ⟨"b", "z", "c", "General", true⟩ 5).1 = .error .conflict :=
  ⟨(C4_actualizar_conflicto [] [⟨"B", "y", "b", "General", false, 0, 0⟩]
      ⟨"A", "x", "a", "General", false, 0, 0⟩
      ⟨"B", "y", "b", "General", false, 0, 0⟩ "a"
      ⟨"A", "z", "c", "General", true⟩ 5 (by decide) (by decide)).1
      (by decide),
   (C4_actualizar_conflicto [] [⟨"B", "y", "b", "General", false, 0, 0⟩]
      ⟨"A", "x", "a", "General", false, 0, 0⟩
      ⟨"B", "y", "b", "General", false, 0, 0⟩ "a"
      ⟨"b", "z", "c", "General", true⟩ 5 (by decide) (by decide)).2
      (by decide) (by decide) (by decide)⟩

/-- C5: a successful update (first match `tgt`, no title conflict)
replaces the note in place — same position, all other notes unchanged —
with an object carrying the request's fields, the old `fecha_creacion`,
and `fecha_actualizacion = now`, which is ≥ the previous value whenever
the clock does not go backwards. -/
theorem C5_actualizar_exito (pre rest : List Nota) (tgt : Nota)
    (titulo : String) (na : NotaCreate) (now : Nat)
    (hpre : ∀ n ∈ pre, lowEq n.titulo titulo = false)
    (htgt : lowEq tgt.titulo titulo = true)
    (hnoconf : conflicto_actualizar (pre ++ tgt :: rest) titulo na.titulo
      = false) :
    actualizar_nota (pre ++ tgt :: rest) titulo na now =
      (.ok (nota_actualizada_obj na tgt now),
        pre ++ nota_actualizada_obj na tgt now :: rest) ∧
    nota_actualizada_obj na tgt now =
      ⟨na.titulo, na.contenido, na.autor, na.categoria, na.importante,
        tgt.fecha_creacion, now⟩ ∧
    (tgt.fecha_actualizacion ≤ now →
      tgt.fecha_actualizacion ≤
        (nota_actualizada_obj na tgt now).fecha_actualizacion) := by
  have hdecomp := @actualizar_go_decomp (pre ++ tgt :: rest) titulo na now
    pre rest tgt hpre htgt
  simp only [hnoconf, Bool.false_eq_true, if_false] at hdecomp
  refine ⟨?_, rfl, fun h => h⟩
  unfold actualizar_nota
  rw [hdecomp]

/-- C5 witness: updating "A" in the middle of a three-note collection. -/
theorem C5_actualizar_exito_witness :
    actualizar_nota ([⟨"B", "y", "b", "General", false, 0, 0⟩] ++
        ⟨"A", "x", "a", "General", false, 0, 3⟩ ::
          [⟨"C", "z", "c", "General", false, 0, 0⟩]) "A"
      ⟨"D", "w", "d", "Cat", true⟩ 7 =
      (.ok (nota_actualizada_obj ⟨"D", "w", "d", "Cat", true⟩
          ⟨"A", "x", "a", "General", false, 0, 3⟩ 7),
        [⟨"B", "y", "b", "General", false, 0, 0⟩] ++
          nota_actualizada_obj ⟨"D", "w", "d", "Cat", true⟩
            ⟨"A", "x", "a", "General", false, 0, 3⟩ 7 ::
            [⟨"C", "z", "c", "General", false, 0, 0⟩]) ∧
    nota_actualizada_obj ⟨"D", "w", "d", "Cat", true⟩
        ⟨"A", "x", "a", "General", false, 0, 3⟩ 7 =
      ⟨"D", "w", "d", "Cat", true, 0, 7⟩ ∧
    ((3 : Nat) ≤ 7 →
      (3 : Nat) ≤ (nota_actualizada_obj ⟨"D", "w", "d", "Cat", true⟩
        ⟨"A", "x", "a", "General", false, 0, 3⟩ 7).fecha_actualizacion) :=
  C5_actualizar_exito [⟨"B", "y", "b", "General", false, 0, 0⟩]
    [⟨"C", "z", "c", "General", false, 0, 0⟩]
    ⟨"A", "x", "a", "General", false, 0, 3⟩ "A"
    ⟨"D", "w", "d", "Cat", true⟩ 7 (by decide) (by decide) (by decide)

/-- C6: a valid create whose title does not collide case-insensitively
appends the new note at the end; a subsequent get with that title returns
it, its fields equal the request's, and its two timestamps coincide. -/
theorem C6_crear_luego_obtener (db : List Nota) (nc : NotaCreate) (now : Nat)
    (ht : strTrim nc.titulo ≠ "") (hc : strTrim nc.contenido ≠ "")
    (hlibre : ∀ n ∈ db, lowEq n.titulo nc.titulo = false) :
    crear_nota db nc now =
      (.ok (nueva_nota nc now), db ++ [nueva_nota nc now]) ∧
    obtener_nota (db ++ [nueva_nota nc now]) nc.titulo =
      .ok (nueva_nota nc now) ∧
    nueva_nota nc now =
      ⟨nc.titulo, nc.contenido, nc.autor, nc.categoria, nc.importante,
        now, now⟩ ∧
    (nueva_nota nc now).fecha_creacion =
      (nueva_nota nc now).fecha_actualizacion :=
  ⟨crear_nota_exito ht hc hlibre, obtener_nota_append_nueva hlibre, rfl, rfl⟩

/-- C6 witness: create "Todo" on a one-note collection, then get it. -/
theorem C6_crear_luego_obtener_witness :
    crear_nota [⟨"B", "y", "b", "General", false, 0, 0⟩]
      ⟨"Todo", "Buy milk", "Alice", "General", false⟩ 4 =
      (.ok (nueva_nota ⟨"Todo", "Buy milk", "Alice", "General", false⟩ 4),
        [⟨"B", "y", "b", "General", false, 0, 0⟩] ++
          [nueva_nota ⟨"Todo", "Buy milk", "Alice", "General", false⟩ 4]) ∧
    obtener_nota ([⟨"B", "y", "b", "General", false, 0, 0⟩] ++
        [nueva_nota ⟨"Todo", "Buy milk", "Alice", "General", false⟩ 4])
      "Todo" =
      .ok (nueva_nota ⟨"Todo", "Buy milk", "Alice", "General", false⟩ 4) ∧
    nueva_nota ⟨"Todo", "Buy milk", "Alice", "General", false⟩ 4 =
      ⟨"Todo", "Buy milk", "Alice", "General", false, 4, 4⟩ ∧
    (nueva_nota ⟨"Todo", "Buy milk", "Alice", "General", false⟩ 4).fecha_creacion =
      (nueva_nota ⟨"Todo", "Buy milk", "Alice", "General", false⟩ 4).fecha_actualizacion :=
  C6_crear_luego_obtener [⟨"B", "y", "b", "General", false, 0, 0⟩]
    ⟨"Todo", "Buy milk", "Alice", "General", false⟩ 4
    (by decide) (by decide) (by decide)

/-- C7: when the collection decomposes around its first (and, with the
rest clean, only) case-insensitive match, delete returns exactly that note
and removes exactly it, after which get with the same title is NotFound;
with no match at all, delete is NotFound and leaves the collection as is. -/
theorem C7_eliminar (db pre rest : List Nota) (tgt : Nota) (titulo : String) :
    (db = pre ++ tgt :: rest →
      (∀ n ∈ pre, lowEq n.titulo titulo = false) →
      lowEq tgt.titulo titulo = true →
      (∀ n ∈ rest, lowEq n.titulo titulo = false) →
      eliminar_nota db titulo = (.ok tgt, pre ++ rest) ∧
      obtener_nota (pre ++ rest) titulo = .error .notFound) ∧
    ((∀ n ∈ db, lowEq n.titulo titulo = false) →
      eliminar_nota db titulo = (.error .notFound, db)) := by
  constructor
  · rintro rfl hpre htgt hrest
    constructor
    · unfold eliminar_nota
      rw [eliminar_go_decomp hpre htgt]
    · apply obtener_nota_none
      intro n hn
      rcases List.mem_append.mp hn with hp | hr
      · exact hpre n hp
      · exact hrest n hr
  · intro hall
    unfold eliminar_nota
    rw [eliminar_go_none hall]

/-- C7 witness: deleting "todo" removes the matching note and a following
get is NotFound; deleting "nada" is NotFound and changes nothing. -/
theorem C7_eliminar_witness :
    (eliminar_nota [⟨"Todo", "Buy milk", "Alice", "General", false, 0, 0⟩]
        "todo" =
      (.ok ⟨"Todo", "Buy milk", "Alice", "General", false, 0, 0⟩, []) ∧
      obtener_nota [] "todo" = .error .notFound) ∧
    eliminar_nota [⟨"Todo", "Buy milk", "Alice", "General", false, 0, 0⟩]
        "nada" =
      (.error .notFound,
        [⟨"Todo", "Buy milk", "Alice", "General", false, 0, 0⟩]) :=
  ⟨(C7_eliminar [⟨"Todo", "Buy milk", "Alice", "General", false, 0, 0⟩]
      [] [] ⟨"Todo", "Buy milk", "Alice", "General", false, 0, 0⟩ "todo").1
      (by decide) (by decide) (by decide) (by decide),
   (C7_eliminar [⟨"Todo", "Buy milk", "Alice", "General", false, 0, 0⟩]
      [] [] ⟨"Todo", "Buy milk", "Alice", "General", false, 0, 0⟩ "nada").2
      (by decide)⟩

/-- `texto` occurs, case-insensitively, as a contiguous substring of `s`. -/
def esSubcadenaCI (texto s : String) : Prop :=
  ∃ pre post, (strLower s).data = pre ++ (strLower texto).data ++ post

/-- C8: search with the empty string returns the whole collection, and in
general a note is in the search result exactly when it is stored and the
text occurs case-insensitively in its title or its content. -/
theorem C8_buscar (db : List Nota) (texto : String) (n : Nota) :
    buscar_notas db "" = db ∧
    (n ∈ buscar_notas db texto ↔
      n ∈ db ∧
        (esSubcadenaCI texto n.titulo ∨ esSubcadenaCI texto n.contenido)) := by
  refine ⟨buscar_notas_vacio db, ?_⟩
  have hco : coincide_busqueda texto n = true ↔
      (esSubcadenaCI texto n.titulo ∨ esSubcadenaCI texto n.contenido) := by
    unfold coincide_busqueda esSubcadenaCI
    rw [Bool.or_eq_true, strIncluye_iff, strIncluye_iff]
  rw [mem_buscar_notas, hco]

/-- C9: statistics report the collection size, the count of important
notes, the normal count as their difference, and a per-category tally
keyed by the raw case-sensitive category string: looking any category
string up in the tally yields exactly the number of notes whose category
equals it verbatim (absent exactly when that number is zero). -/
theorem C9_estadisticas (db : List Nota) (c : String) :
    (obtener_estadisticas db).total_notas = db.length ∧
    (obtener_estadisticas db).notas_importantes =
      (db.filter (fun n => n.importante)).length ∧
    (obtener_estadisticas db).notas_normales =
      (obtener_estadisticas db).total_notas -
        (obtener_estadisticas db).notas_importantes ∧
    (dictGet (obtener_estadisticas db).categorias c).getD 0 =
      contarCategoria db c ∧
    (dictGet (obtener_estadisticas db).categorias c = none ↔
      contarCategoria db c = 0) := by
  refine ⟨rfl, rfl, rfl, ?_, ?_⟩
  · have h := categorias_fold_getD db [] c
    simpa [obtener_estadisticas, dictGet] using h
  · have h := categorias_fold_none db [] c
    simpa [obtener_estadisticas, dictGet] using h

/-- C10: passing the empty string as the category filter behaves exactly
like passing no category filter at all (Python truthiness of `""`),
instead of selecting the notes whose category is the empty string. -/
theorem C10_categoria_vacia (db : List Nota) (importante : Option Bool) :
    obtener_notas db (some "") importante = obtener_notas db none importante :=
  rfl
